import Mathlib

/-!
Verification of the termtypr typing-trainer against its specification.

The Python sources are shallowly embedded: words are lists of characters,
Python floats are modelled as rationals, Python `round(x, 2)` is modelled by
`round2`, lists mirror Python lists, and `dict.get` fallbacks are modelled
with `Option`.  Clock readings (`time.time()`, `datetime.now()`) are passed
explicitly as a `now` argument.
-/

namespace Termtypr

/-- A Python string, viewed character by character. -/
abbrev Str := List Char

/-- Python `round(x, 2)`: round to two decimal places. -/
def round2 (x : ℚ) : ℚ := (round (x * 100) : ℤ) / 100

/-- Python `s[i] if i < len(s) else ""`: the character at `i`, `none` when past
the end (the empty-string padding used by `calculate_wpm`). -/
def charAt (s : Str) (i : ℕ) : Option Char := s.get? i

/-- Inner loop of `calculate_wpm`: for one `(typed, target)` pair, count the
positions `i < max(len typed, len target)` where the padded characters differ.
Accumulator style mirrors the Python `for i in range(max_len)` loop. -/
def countErrorsWord (typed target : Str) : ℕ :=
  (List.range (max typed.length target.length)).foldl
    (fun acc i => if charAt typed i ≠ charAt target i then acc + 1 else acc) 0

/-- Outer loop of `calculate_wpm`: `for typed, target in zip(typed_words,
target_words)`, accumulating `uncorrected_errors`. -/
def uncorrectedErrors (typed_words target_words : List Str) : ℕ :=
  (typed_words.zip target_words).foldl
    (fun acc p => acc + countErrorsWord p.1 p.2) 0

/-- `sum(len(word) for word in typed_words)` as the Python generator runs. -/
def sumLengths (ws : List Str) : ℕ :=
  ws.foldl (fun acc w => acc + w.length) 0

/-- `core/stats_calculator.py: calculate_wpm`.  Net WPM:
`((total_chars - uncorrected_errors) / 5) / minutes`, with one separator
character per adjacent pair of typed words, floored at 0, rounded to two
decimals; 0 when the elapsed time is falsy. -/
def calculate_wpm (typed_words target_words : List Str)
    (elapsed_time_seconds : ℚ) : ℚ :=
  if elapsed_time_seconds = 0 then 0
  else
    let errors : ℕ := uncorrectedErrors typed_words target_words
    let total_chars : ℕ :=
      sumLengths typed_words +
        (if 1 < typed_words.length then typed_words.length - 1 else 0)
    let minutes : ℚ := elapsed_time_seconds / 60
    let net_wpm : ℚ := (((total_chars : ℚ) - (errors : ℚ)) / 5) / minutes
    round2 (max net_wpm 0)

/-- `core/stats_calculator.py: calculate_accuracy`.
`100 * (total_typed - min(typos, total_typed)) / total_typed`, rounded to two
decimals; 0 when either word list is empty or no characters were typed. -/
def calculate_accuracy (typed_words target_words : List Str)
    (typo_count : ℤ) : ℚ :=
  if typed_words = [] ∨ target_words = [] then 0
  else if sumLengths typed_words = 0 then 0
  else round2 ((((sumLengths typed_words : ℚ)
      - min (typo_count : ℚ) (sumLengths typed_words : ℚ))
    / (sumLengths typed_words : ℚ)) * 100)

/-! ### Specification-side restatements (from the spec's words, for C1) -/

/-- Spec side: `uncorrected_errors` = count of character positions, across all
paired tokens up to the shorter pairing count, where the characters differ,
padding past the shorter token with the empty character. -/
def specUncorrectedErrors (typed_words target_words : List Str) : ℕ :=
  ((typed_words.zip target_words).map (fun p =>
    ((List.range (max p.1.length p.2.length)).filter
      (fun i => charAt p.1 i ≠ charAt p.2 i)).length)).sum

/-- Spec side: total typed characters = sum of typed-token lengths plus
`len(typed) - 1` separators when there is more than one typed token. -/
def specTotalChars (typed_words : List Str) : ℕ :=
  (typed_words.map List.length).sum +
    (if 1 < typed_words.length then typed_words.length - 1 else 0)

/-! ### Helper lemmas about the loop accumulators -/

theorem foldl_count_eq (p : ℕ → Bool) (l : List ℕ) (n : ℕ) :
    l.foldl (fun acc i => if p i then acc + 1 else acc) n
      = n + (l.filter p).length := by
  induction l generalizing n with
  | nil => simp
  | cons a t ih =>
      by_cases h : p a <;> simp [h, ih] <;> omega

theorem countErrorsWord_eq (typed target : Str) :
    countErrorsWord typed target
      = ((List.range (max typed.length target.length)).filter
          (fun i => charAt typed i ≠ charAt target i)).length := by
  simpa [countErrorsWord] using
    foldl_count_eq (fun i => decide (charAt typed i ≠ charAt target i))
      (List.range (max typed.length target.length)) 0

theorem foldl_add_eq (f : Str × Str → ℕ) (l : List (Str × Str)) (n : ℕ) :
    l.foldl (fun acc p => acc + f p) n = n + (l.map f).sum := by
  induction l generalizing n with
  | nil => simp
  | cons a t ih => simp [ih]; omega

theorem uncorrectedErrors_eq (typed_words target_words : List Str) :
    uncorrectedErrors typed_words target_words
      = specUncorrectedErrors typed_words target_words := by
  unfold uncorrectedErrors specUncorrectedErrors
  rw [foldl_add_eq]
  simp [countErrorsWord_eq]

theorem foldl_len_eq (l : List Str) (n : ℕ) :
    l.foldl (fun acc w => acc + w.length) n = n + (l.map List.length).sum := by
  induction l generalizing n with
  | nil => simp
  | cons a t ih => simp [ih]; omega

theorem sumLengths_eq (ws : List Str) :
    sumLengths ws = (ws.map List.length).sum := by
  simpa [sumLengths] using foldl_len_eq ws 0

theorem round2_nonneg (x : ℚ) (h : 0 ≤ x) : 0 ≤ round2 x := by
  unfold round2
  apply div_nonneg _ (by norm_num)
  have h2 : (0 : ℤ) ≤ round (x * 100) := by
    rw [round_eq, Int.floor_nonneg]
    linarith
  exact_mod_cast h2

theorem round2_le_hundred (x : ℚ) (h : x ≤ 100) : round2 x ≤ 100 := by
  unfold round2
  rw [div_le_iff (by norm_num : (0 : ℚ) < 100)]
  have h2 : round (x * 100) ≤ 10000 := by
    rw [round_eq, Int.floor_le_iff]
    push_cast
    linarith
  calc ((round (x * 100) : ℤ) : ℚ) ≤ ((10000 : ℤ) : ℚ) := by exact_mod_cast h2
    _ = 100 * 100 := by norm_num

/-- C1: `calculate_wpm` returns `max(0, ((total_chars − uncorrected_errors)/5)
/ (elapsed/60))` rounded to 2 decimals, where `total_chars` is the sum of
typed-token lengths plus `len(typed) − 1` separators when there is more than
one typed token, and `uncorrected_errors` counts, across token pairs up to the
shorter list length, every position where the padded characters differ; when
`elapsed_seconds` is 0 the result is 0. -/
theorem calculate_wpm_matches_spec (typed_words target_words : List Str)
    (elapsed : ℚ) :
    calculate_wpm typed_words target_words elapsed =
      if elapsed = 0 then 0
      else round2 (max 0
        ((((specTotalChars typed_words : ℚ)
            - (specUncorrectedErrors typed_words target_words : ℚ)) / 5)
          / (elapsed / 60))) := by
  unfold calculate_wpm specTotalChars
  rw [uncorrectedErrors_eq, sumLengths_eq, max_comm]

/-- C9: `calculate_accuracy` equals
`100 * (total − min(typos, total)) / total` rounded to 2 decimals, is within
`[0, 100]` for non-negative typo counts, equals 100 when `typo_count = 0` and
the inputs are non-degenerate, and is 0 when either list is empty or the
total typed character count is 0. -/
theorem calculate_accuracy_matches_spec (typed_words target_words : List Str)
    (typo_count : ℤ) :
    (typed_words = [] ∨ target_words = []
        ∨ (typed_words.map List.length).sum = 0 →
      calculate_accuracy typed_words target_words typo_count = 0) ∧
    (typed_words ≠ [] → target_words ≠ [] →
      (typed_words.map List.length).sum ≠ 0 →
      calculate_accuracy typed_words target_words typo_count =
        round2 (100 * ((((typed_words.map List.length).sum : ℚ)
            - min (typo_count : ℚ) ((typed_words.map List.length).sum : ℚ))
          / ((typed_words.map List.length).sum : ℚ)))) ∧
    (0 ≤ typo_count →
      0 ≤ calculate_accuracy typed_words target_words typo_count ∧
        calculate_accuracy typed_words target_words typo_count ≤ 100) ∧
    (typo_count = 0 → typed_words ≠ [] → target_words ≠ [] →
      (typed_words.map List.length).sum ≠ 0 →
      calculate_accuracy typed_words target_words typo_count = 100) := by
  have hkey : calculate_accuracy typed_words target_words typo_count =
      if typed_words = [] ∨ target_words = [] then 0
      else if (typed_words.map List.length).sum = 0 then 0
      else round2 (100 * ((((typed_words.map List.length).sum : ℚ)
          - min (typo_count : ℚ) (((typed_words.map List.length).sum : ℚ)))
        / (((typed_words.map List.length).sum : ℚ)))) := by
    unfold calculate_accuracy
    rw [sumLengths_eq]
    split_ifs with h1 h2
    · rfl
    · rfl
    · congr 1
      ring
  refine ⟨?_, ?_, ?_, ?_⟩
  · intro h
    rw [hkey]
    rcases h with h | h | h
    · simp [h]
    · simp [h]
    · simp [h]
  · intro h0 h1 h2
    rw [hkey, if_neg (by simp [h0, h1]), if_neg h2]
  · intro htc
    rw [hkey]
    split_ifs with h1 h2
    · norm_num
    · norm_num
    · have hSpos : (0 : ℚ) < ((typed_words.map List.length).sum : ℚ) := by
        exact_mod_cast Nat.pos_of_ne_zero h2
      have hmin_le : min (typo_count : ℚ) ((typed_words.map List.length).sum : ℚ)
          ≤ ((typed_words.map List.length).sum : ℚ) := min_le_right _ _
      have hmin_nonneg :
          0 ≤ min (typo_count : ℚ) ((typed_words.map List.length).sum : ℚ) := by
        apply le_min
        · exact_mod_cast htc
        · exact le_of_lt hSpos
      constructor
      · apply round2_nonneg
        apply mul_nonneg (by norm_num)
        apply div_nonneg _ (le_of_lt hSpos)
        linarith
      · apply round2_le_hundred
        have hq : (((typed_words.map List.length).sum : ℚ)
            - min (typo_count : ℚ) ((typed_words.map List.length).sum : ℚ))
            / ((typed_words.map List.length).sum : ℚ) ≤ 1 := by
          rw [div_le_one hSpos]
          linarith
        linarith
  · intro htc h0 h1 h2
    rw [hkey, if_neg (by simp [h0, h1]), if_neg h2]
    have hSpos : (0 : ℚ) < ((typed_words.map List.length).sum : ℚ) := by
      exact_mod_cast Nat.pos_of_ne_zero h2
    rw [htc]
    have hmin : min ((0 : ℤ) : ℚ) ((typed_words.map List.length).sum : ℚ) = 0 := by
      rw [Int.cast_zero]
      exact min_eq_left (le_of_lt hSpos)
    rw [hmin, sub_zero, div_self (ne_of_gt hSpos), mul_one]
    have h100 : round ((100 : ℚ) * 100) = 10000 := by
      rw [show ((100 : ℚ) * 100) = ((10000 : ℤ) : ℚ) by norm_num]
      exact round_intCast 10000
    unfold round2
    rw [h100]
    norm_num

/-- Witness for C9 at a concrete input. -/
theorem calculate_accuracy_matches_spec_witness :
    calculate_accuracy [['h', 'i']] [['h', 'i']] 0 = 100 :=
  (calculate_accuracy_matches_spec [['h', 'i']] [['h', 'i']] 0).2.2.2
    rfl (by decide) (by decide) (by decide)

/-! ### The game session (`games/base_game.py`) -/

/-- `games/base_game.py: GameStatus`. -/
inductive GameStatus
  | not_started
  | ready
  | active
  | completed
  | cancelled
deriving DecidableEq, Repr

/-- A Python `datetime`: an instant plus whether it carries timezone info
(naive datetimes have `aware = false`).  The code only compares, stores and
re-parses datetimes, so the instant is abstract. -/
structure DT where
  aware : Bool
  instant : ℚ
deriving DecidableEq, Repr

/-- `domain/models/game_result.py: GameResult` (a frozen dataclass). -/
structure GameResult where
  wpm : ℚ
  accuracy : ℚ
  duration : ℚ
  game_type : String
  timestamp : DT
  total_characters : ℕ := 0
  correct_characters : ℕ := 0
  error_count : ℕ := 0
  is_new_record : Bool := false
  previous_best : Option ℚ := none
deriving DecidableEq, Repr

/-- The mutable state of `games/base_game.py: BaseGame`. -/
structure GameState where
  name : String
  status : GameStatus
  target_words : List Str
  typed_words : List Str
  current_word_index : ℕ
  start_time : ℚ
  end_time : ℚ
  error_count : ℕ
  current_input : Str
  previous_input : Str
  result : Option GameResult
deriving DecidableEq, Repr

/-- Python `target.startswith(input)`. -/
def pyStartsWith (s candidate : Str) : Bool :=
  s.take candidate.length = candidate

/-- Python `while len(l) <= idx: l.append("")`: pad so that index `idx` is
valid. -/
def padUpto (l : List Str) (idx : ℕ) : List Str :=
  l ++ List.replicate (idx + 1 - l.length) []

/-- Python `while len(l) < n: l.append("")`: pad to length at least `n`. -/
def padToLen (l : List Str) (n : ℕ) : List Str :=
  l ++ List.replicate (n - l.length) []

/-- `BaseGame._process_complete_word`: commit the submitted word verbatim,
advance the cursor, reset the per-word trackers, and complete the session
when the last target word has been attempted. -/
def processCompleteWord (s : GameState) (word : Str) : String × GameState :=
  if s.target_words.length ≤ s.current_word_index then
    ("complete", { s with status := .completed })
  else
    let tw := (padUpto s.typed_words s.current_word_index).set
      s.current_word_index word
    let idx := s.current_word_index + 1
    let s' := { s with typed_words := tw, current_word_index := idx,
                       current_input := [], previous_input := [] }
    if s.target_words.length ≤ idx then
      ("complete", { s' with status := .completed,
                             typed_words := padToLen tw s.target_words.length })
    else
      ("active", s')

/-- `BaseGame._process_partial_input`: record the in-progress word
character by character, counting an error exactly when new characters were
added and the input stopped matching the target's first characters. -/
def processCharInput (s : GameState) (input : Str) : String × GameState :=
  let ec :=
    if s.current_word_index < s.target_words.length then
      let target_word := s.target_words.getD s.current_word_index []
      if input ≠ [] ∧ s.previous_input.length < input.length
          ∧ ¬ pyStartsWith target_word input then
        s.error_count + 1
      else s.error_count
    else s.error_count
  let tw := (padUpto s.typed_words s.current_word_index).set
    s.current_word_index input
  ("active", { s with error_count := ec, previous_input := input,
                      current_input := input, typed_words := tw })

/-- `BaseGame.process_input` after the timer-start branch: reject input while
the session is not ACTIVE, then dispatch on whether the input is a completed
word. -/
def processInputAux (s : GameState) (input : Str)
    (is_complete_input : Bool) : String × GameState :=
  if s.status ≠ .active then ("inactive", s)
  else if is_complete_input then processCompleteWord s input
  else processCharInput s input

/-- `BaseGame.process_input`: start the timer (and activate the session) on
the first non-empty input, then continue with the updated state. -/
def processInput (s : GameState) (input : Str) (is_complete_input : Bool)
    (now : ℚ) : String × GameState :=
  processInputAux
    (if s.start_time = 0 ∧ input ≠ [] then
      { s with status := .active, start_time := now }
    else s) input is_complete_input

/-- `BaseGame.finish`: mark the session completed, read the clock, and build
the `GameResult` from the words completed so far. -/
def finishGame (s : GameState) (now : ℚ) : GameResult × GameState :=
  let elapsed : ℚ := if 0 < s.start_time then now - s.start_time else 0
  let completed_typed := s.typed_words.take s.current_word_index
  let completed_target := s.target_words.take s.current_word_index
  let r : GameResult := {
    wpm := calculate_wpm completed_typed completed_target elapsed
    accuracy := calculate_accuracy completed_typed completed_target
      (s.error_count : ℤ)
    duration := elapsed
    game_type := s.name
    timestamp := ⟨true, now⟩
    total_characters := (completed_target.map List.length).sum
    correct_characters :=
      (((completed_typed.zip completed_target).filter
        (fun p => p.1 = p.2)).map (fun p => p.1.length)).sum
    error_count := s.error_count }
  (r, { s with status := .completed, end_time := now, result := some r })

/-- `BaseGame.cancel`. -/
def cancelGame (s : GameState) : GameState :=
  { s with status := .cancelled, result := none }

/-- `BaseGame.is_finished`. -/
def isFinished (s : GameState) : Bool :=
  s.status = .completed ∨ s.status = .cancelled

theorem padUpto_length (l : List Str) (idx : ℕ) :
    (padUpto l idx).length = max l.length (idx + 1) := by
  simp [padUpto]
  omega

theorem padToLen_length (l : List Str) (n : ℕ) :
    (padToLen l n).length = max l.length n := by
  simp [padToLen]
  omega

theorem padUpto_set_get (l : List Str) (idx : ℕ) (w : Str) :
    ((padUpto l idx).set idx w).get? idx = some w := by
  apply List.get?_set_eq_of_lt
  rw [padUpto_length]
  omega

/-- Core facts about `_process_complete_word` on the raw session state. -/
theorem processCompleteWord_spec (s : GameState) (word : Str)
    (hinv : s.typed_words.length ≤ s.target_words.length) :
    (s.current_word_index < s.target_words.length →
      (processCompleteWord s word).2.typed_words.get? s.current_word_index
          = some word ∧
      (processCompleteWord s word).2.current_word_index
          = s.current_word_index + 1 ∧
      (processCompleteWord s word).2.current_input = [] ∧
      (processCompleteWord s word).2.previous_input = [] ∧
      (s.current_word_index + 1 = s.target_words.length →
        (processCompleteWord s word).2.status = GameStatus.completed ∧
        (processCompleteWord s word).2.typed_words.length
            = s.target_words.length)) ∧
    (s.target_words.length ≤ s.current_word_index →
      (processCompleteWord s word).2.typed_words = s.typed_words ∧
      (processCompleteWord s word).2.status = GameStatus.completed ∧
      (processCompleteWord s word).2.current_word_index
          = s.current_word_index) := by
  constructor
  · intro hlt
    unfold processCompleteWord
    rw [if_neg (not_le.mpr hlt)]
    by_cases hend : s.target_words.length ≤ s.current_word_index + 1
    · rw [if_pos hend]
      have hlen : ((padUpto s.typed_words s.current_word_index).set
          s.current_word_index word).length ≤ s.target_words.length := by
        rw [List.length_set, padUpto_length]
        omega
      refine ⟨?_, rfl, rfl, rfl, fun _ => ⟨rfl, ?_⟩⟩
      · show (padToLen _ s.target_words.length).get? s.current_word_index
            = some word
        unfold padToLen
        rw [List.get?_append, padUpto_set_get]
        rw [List.length_set, padUpto_length]
        omega
      · show (padToLen _ s.target_words.length).length = s.target_words.length
        rw [padToLen_length]
        omega
    · rw [if_neg hend]
      refine ⟨padUpto_set_get _ _ _, rfl, rfl, rfl, fun heq => ?_⟩
      omega
  · intro hge
    unfold processCompleteWord
    rw [if_pos hge]
    exact ⟨rfl, rfl, rfl⟩

/-- `process_input` on an ACTIVE session dispatches to the word handlers,
after the (possibly re-firing) timer-start branch. -/
theorem processInput_active_eq (s : GameState) (input : Str)
    (is_complete_input : Bool) (now : ℚ)
    (hact : s.status = GameStatus.active) :
    processInput s input is_complete_input now =
      if is_complete_input then
        processCompleteWord
          (if s.start_time = 0 ∧ input ≠ [] then
            { s with status := GameStatus.active, start_time := now }
          else s) input
      else
        processCharInput
          (if s.start_time = 0 ∧ input ≠ [] then
            { s with status := GameStatus.active, start_time := now }
          else s) input := by
  by_cases htrig : s.start_time = 0 ∧ input ≠ []
  · simp [processInput, processInputAux, htrig]
  · simp [processInput, processInputAux, htrig, hact]

/-- C2: on an ACTIVE session, a complete-word submission before the end of
the target list commits the word verbatim at the cursor, advances the cursor,
and resets the partial-input trackers; reaching the end completes the session
and back-fills `typed_words` to the length of `target_words`; a submission
with the cursor already at the end writes nothing and completes the session.
The hypothesis `typed_words.length ≤ target_words.length` is the session
well-formedness invariant maintained by the input handlers. -/
theorem process_input_complete_word (s : GameState) (word : Str) (now : ℚ)
    (hact : s.status = GameStatus.active)
    (hinv : s.typed_words.length ≤ s.target_words.length) :
    (s.current_word_index < s.target_words.length →
      (processInput s word true now).2.typed_words.get? s.current_word_index
          = some word ∧
      (processInput s word true now).2.current_word_index
          = s.current_word_index + 1 ∧
      (processInput s word true now).2.current_input = [] ∧
      (processInput s word true now).2.previous_input = [] ∧
      (s.current_word_index + 1 = s.target_words.length →
        (processInput s word true now).2.status = GameStatus.completed ∧
        (processInput s word true now).2.typed_words.length
            = s.target_words.length)) ∧
    (s.target_words.length ≤ s.current_word_index →
      (processInput s word true now).2.typed_words = s.typed_words ∧
      (processInput s word true now).2.status = GameStatus.completed ∧
      (processInput s word true now).2.current_word_index
          = s.current_word_index) := by
  rw [processInput_active_eq s word true now hact, if_pos rfl]
  by_cases htrig : s.start_time = 0 ∧ word ≠ []
  · rw [if_pos htrig]
    exact processCompleteWord_spec { s with status := GameStatus.active, start_time := now } word hinv
  · rw [if_neg htrig]
    exact processCompleteWord_spec s word hinv

/-! ### Finishing a session (C5) and inactive sessions (C6) -/

/-- C5 (amended): `finish()` mutates none of the inputs of the result
computation (word lists, cursor, error count, start time), so a second
`finish()` at the same clock instant returns a `GameResult` equal to the
first; the second call does, however, re-read the clock, so with time
advanced the duration and timestamp differ (see the counterexample). -/
theorem finish_twice_same_instant (s : GameState) (now : ℚ) :
    (finishGame (finishGame s now).2 now).1 = (finishGame s now).1 := by
  rfl

/-- Counterexample to C5 as stated: finishing an already-completed session a
second time at a later clock reading yields a different `GameResult` (the end
time is re-read, so duration, WPM and timestamp change). -/
theorem finish_twice_counterexample :
    (finishGame (finishGame ⟨"Random Words", GameStatus.completed,
        [['h', 'i']], [['h', 'i']], 1, 10, 0, 0, [], [], none⟩ 70).2 130).1
      ≠ (finishGame ⟨"Random Words", GameStatus.completed,
        [['h', 'i']], [['h', 'i']], 1, 10, 0, 0, [], [], none⟩ 70).1 := by
  intro h
  have hd := congrArg GameResult.duration h
  simp only [finishGame] at hd
  norm_num at hd

/-- C6 (amended): a `process_input` call while the session is not ACTIVE —
other than a triggering call with non-empty text while the timer has not
started — returns "inactive" and leaves the state untouched; in particular a
session in a terminal state whose timer has started is never re-activated.
(A CANCELLED session whose timer never started is re-activated by a first
non-empty input: see the counterexample.) -/
theorem process_input_inactive (s : GameState) (input : Str) (c : Bool)
    (now : ℚ) :
    (s.status ≠ GameStatus.active → ¬(s.start_time = 0 ∧ input ≠ []) →
      processInput s input c now = ("inactive", s)) ∧
    ((s.status = GameStatus.completed ∨ s.status = GameStatus.cancelled) →
      s.start_time ≠ 0 →
      processInput s input c now = ("inactive", s)) := by
  constructor
  · intro hstat htrig
    unfold processInput processInputAux
    rw [if_neg htrig, if_pos hstat]
  · intro hterm hstart
    have hstat : s.status ≠ GameStatus.active := by
      rcases hterm with h | h <;> simp [h]
    have htrig : ¬(s.start_time = 0 ∧ input ≠ []) := fun hc => hstart hc.1
    unfold processInput processInputAux
    rw [if_neg htrig, if_pos hstat]

/-- Witness for C6 (amended): input to a completed session whose timer has
started is rejected without mutation. -/
theorem process_input_inactive_witness :
    processInput ⟨"Random Words", GameStatus.completed, [['h', 'i']],
        [['h', 'i']], 1, 3, 0, 0, [], [], none⟩ ['a'] false 9
      = ("inactive", ⟨"Random Words", GameStatus.completed, [['h', 'i']],
        [['h', 'i']], 1, 3, 0, 0, [], [], none⟩) :=
  (process_input_inactive ⟨"Random Words", GameStatus.completed, [['h', 'i']],
      [['h', 'i']], 1, 3, 0, 0, [], [], none⟩ ['a'] false 9).2
    (Or.inl rfl) (by decide)

/-- Counterexample to C6 as stated: a CANCELLED session whose timer never
started (e.g. cancelled before any input) is moved back to ACTIVE by a
non-empty input, because the timer-start branch fires. -/
theorem process_input_revives_cancelled :
    (⟨"Random Words", GameStatus.cancelled, [['h', 'i']], [],
        0, 0, 0, 0, [], [], none⟩ : GameState).status
      = GameStatus.cancelled ∧
    (processInput ⟨"Random Words", GameStatus.cancelled, [['h', 'i']], [],
        0, 0, 0, 0, [], [], none⟩ ['a'] false 5).2.status
      = GameStatus.active := by
  constructor
  · rfl
  · decide

/-! ### Error counting (C3) -/

/-- One `process_input` call: the text, the completion flag, and the clock
reading at the call. -/
structure InputEvent where
  text : Str
  is_complete : Bool
  now : ℚ

/-- A sequence of `process_input` calls within one session. -/
def applyInputs (s : GameState) (events : List InputEvent) : GameState :=
  events.foldl (fun st e => (processInput st e.text e.is_complete e.now).2) s

/-- Python's `target.startswith(input)` holds exactly when `input` is an
initial segment of `target`. -/
theorem pyStartsWith_iff (s candidate : Str) :
    pyStartsWith s candidate = true ↔ ∃ t, s = candidate ++ t := by
  unfold pyStartsWith
  rw [decide_eq_true_eq]
  constructor
  · intro h
    refine ⟨s.drop candidate.length, ?_⟩
    conv_lhs => rw [← List.take_append_drop candidate.length s]
    rw [h]
  · rintro ⟨t, rfl⟩
    exact List.take_left candidate t

theorem processCompleteWord_error_count (s : GameState) (word : Str) :
    (processCompleteWord s word).2.error_count = s.error_count := by
  unfold processCompleteWord
  split_ifs with h1
  · rfl
  · dsimp only
    split_ifs with h2 <;> rfl

theorem processCharInput_error_count_le (s : GameState) (input : Str) :
    s.error_count ≤ (processCharInput s input).2.error_count := by
  unfold processCharInput
  dsimp only
  split_ifs <;> omega

theorem processInputAux_error_count_le (s : GameState) (input : Str)
    (c : Bool) :
    s.error_count ≤ (processInputAux s input c).2.error_count := by
  unfold processInputAux
  split_ifs
  · exact le_refl _
  · rw [processCompleteWord_error_count]
  · exact processCharInput_error_count_le s input

theorem processInput_error_count_le (s : GameState) (input : Str) (c : Bool)
    (now : ℚ) :
    s.error_count ≤ (processInput s input c now).2.error_count := by
  unfold processInput
  split_ifs
  · exact processInputAux_error_count_le { s with status := GameStatus.active, start_time := now } input c
  · exact processInputAux_error_count_le s input c

/-- The error counter of `_process_partial_input`, when the cursor points at
a target word: it increments exactly when the input is non-empty, strictly
longer than the previous partial input, and not an initial segment of the
target word. -/
theorem processCharInput_error_count (s : GameState) (input : Str)
    (hcur : s.current_word_index < s.target_words.length) :
    ((input ≠ [] ∧ s.previous_input.length < input.length ∧
        ¬ ∃ rest, s.target_words.getD s.current_word_index []
          = input ++ rest) →
      (processCharInput s input).2.error_count = s.error_count + 1) ∧
    (¬(input ≠ [] ∧ s.previous_input.length < input.length ∧
        ¬ ∃ rest, s.target_words.getD s.current_word_index []
          = input ++ rest) →
      (processCharInput s input).2.error_count = s.error_count) := by
  constructor
  · rintro ⟨h1, h2, h3⟩
    show (if s.current_word_index < s.target_words.length then _ else _) = _
    rw [if_pos hcur, if_pos]
    refine ⟨h1, h2, ?_⟩
    intro hsw
    exact h3 ((pyStartsWith_iff _ _).mp hsw)
  · intro h
    show (if s.current_word_index < s.target_words.length then _ else _) = _
    rw [if_pos hcur, if_neg]
    rintro ⟨h1, h2, h3⟩
    refine h ⟨h1, h2, fun hex => h3 ?_⟩
    exact (pyStartsWith_iff _ _).mpr hex

/-- C3: within a session, `error_count` never decreases across
`process_input` calls, and a partial-input call on an ACTIVE session with the
cursor at a target word increments it by exactly one if and only if the new
input is non-empty, strictly longer than the previous partial input, and not
an initial segment of the current target word (so deletion or backspace never
changes it). -/
theorem error_count_monotone_and_increment :
    (∀ (s : GameState) (events : List InputEvent),
      s.error_count ≤ (applyInputs s events).error_count) ∧
    (∀ (s : GameState) (input : Str) (now : ℚ),
      s.status = GameStatus.active →
      s.current_word_index < s.target_words.length →
      ((input ≠ [] ∧ s.previous_input.length < input.length ∧
          ¬ ∃ rest, s.target_words.getD s.current_word_index []
            = input ++ rest) →
        (processInput s input false now).2.error_count
          = s.error_count + 1) ∧
      (¬(input ≠ [] ∧ s.previous_input.length < input.length ∧
          ¬ ∃ rest, s.target_words.getD s.current_word_index []
            = input ++ rest) →
        (processInput s input false now).2.error_count = s.error_count)) := by
  constructor
  · intro s events
    induction events generalizing s with
    | nil => exact le_refl _
    | cons e t ih =>
        exact le_trans (processInput_error_count_le s e.text e.is_complete
          e.now) (ih _)
  · intro s input now hact hcur
    rw [processInput_active_eq s input false now hact]
    rw [if_neg (by simp)]
    by_cases htrig : s.start_time = 0 ∧ input ≠ []
    · rw [if_pos htrig]
      exact processCharInput_error_count { s with status := GameStatus.active, start_time := now } input hcur
    · rw [if_neg htrig]
      exact processCharInput_error_count s input hcur

/-- Witness for C3: typing a wrong first character on a fresh one-word
session increments `error_count` from 0 to 1. -/
theorem error_count_monotone_and_increment_witness :
    (processInput ⟨"Random Words", GameStatus.active, [['h', 'i']], [],
        0, 3, 0, 0, [], [], none⟩ ['x'] false 5).2.error_count = 0 + 1 :=
  (error_count_monotone_and_increment.2
    ⟨"Random Words", GameStatus.active, [['h', 'i']], [],
      0, 3, 0, 0, [], [], none⟩ ['x'] 5 rfl (by decide)).1
    ⟨by decide, by decide,
      by rintro ⟨rest, h⟩; injection h with h1 h2; exact absurd h1 (by decide)⟩

/-! ### Serialization of results (C7) -/

/-- The Python dict handled by `GameResult.to_dict` / `from_dict`: each key
that either method touches, `none` when the key is absent.  The ISO-8601
string codec for timestamps is abstracted: a serialized timestamp is modelled
as the `DT` value it encodes (the codec round-trips both aware and naive
datetimes; a datetime value is always truthy). -/
structure PyDict where
  wpm : Option ℚ
  accuracy : Option ℚ
  duration : Option ℚ
  game_type : Option String
  game : Option String
  timestamp : Option DT
  date : Option DT
  total_characters : Option ℕ
  correct_characters : Option ℕ
  error_count : Option ℕ
deriving DecidableEq, Repr

/-- `GameResult.to_dict`: the eight persisted keys; the transient
`is_new_record` / `previous_best` annotations are not written, and the legacy
`game` / `date` keys are never emitted. -/
def to_dict (r : GameResult) : PyDict :=
  { wpm := some r.wpm
    accuracy := some r.accuracy
    duration := some r.duration
    game_type := some r.game_type
    game := none
    timestamp := some r.timestamp
    date := none
    total_characters := some r.total_characters
    correct_characters := some r.correct_characters
    error_count := some r.error_count }

/-- Python `a or b` for an optional string `a`: `None` and the empty string
are falsy. -/
def strOr (a : Option String) (b : String) : String :=
  match a with
  | some s => if s = "" then b else s
  | none => b

/-- `from_dict`'s timestamp handling: normalise a legacy naive timestamp to
UTC-aware, and fall back to `datetime.now(tz=utc)` when no timestamp was
stored. -/
def normalizeTs (raw : Option DT) (now : ℚ) : DT :=
  match raw with
  | some t => if t.aware then t else ⟨true, t.instant⟩
  | none => ⟨true, now⟩

/-- `GameResult.from_dict`: read the modern keys with legacy fallbacks
(`game` for `game_type`, `date` for `timestamp`) and safe defaults; the
transient annotations are not read at all and take their dataclass
defaults. -/
def from_dict (data : PyDict) (now : ℚ) : GameResult :=
  { wpm := data.wpm.getD 0
    accuracy := data.accuracy.getD 0
    duration := data.duration.getD 0
    game_type := strOr data.game_type (data.game.getD "Unknown")
    timestamp := normalizeTs (data.timestamp.orElse (fun _ => data.date)) now
    total_characters := data.total_characters.getD 0
    correct_characters := data.correct_characters.getD 0
    error_count := data.error_count.getD 0 }

/-- C7 (amended): serializing and deserializing a `GameResult` preserves all
eight persisted fields provided `game_type` is non-empty (an empty, hence
falsy, `game_type` deserializes as "Unknown") and the timestamp is
timezone-aware (a naive one is normalised to UTC-aware on load); the
transient annotations are excluded from the serialized dict — `to_dict` does
not depend on them — and re-derive to `false` / absent on load. -/
theorem to_dict_from_dict_round_trip (r : GameResult) (now : ℚ)
    (hgt : r.game_type ≠ "") (haware : r.timestamp.aware = true) :
    from_dict (to_dict r) now
        = { r with is_new_record := false, previous_best := none } ∧
    (∀ b p, to_dict { r with is_new_record := b, previous_best := p }
        = to_dict r) := by
  constructor
  · obtain ⟨wpm, accuracy, duration, game_type, ⟨aware, instant⟩,
      tc, cc, ec, inr, pb⟩ := r
    dsimp only at haware hgt
    subst haware
    unfold from_dict to_dict strOr normalizeTs
    simp [hgt]
  · intro b p
    rfl

/-- Witness for C7 at a concrete result. -/
theorem to_dict_from_dict_round_trip_witness :
    from_dict (to_dict ⟨50, 98, 60, "Random Words", ⟨true, 100⟩,
        10, 9, 1, true, some 40⟩) 7
      = ⟨50, 98, 60, "Random Words", ⟨true, 100⟩, 10, 9, 1, false, none⟩ :=
  (to_dict_from_dict_round_trip ⟨50, 98, 60, "Random Words", ⟨true, 100⟩,
      10, 9, 1, true, some 40⟩ 7 (by decide) rfl).1

/-- Counterexample to C7 as stated: a result whose `game_type` is the empty
string does not round-trip — the falsy value falls through to the legacy
lookup and deserializes as "Unknown". -/
theorem round_trip_empty_game_type_counterexample :
    (from_dict (to_dict ⟨50, 98, 60, "", ⟨true, 0⟩, 10, 9, 1, false, none⟩)
        0).game_type
      ≠ (⟨50, 98, 60, "", ⟨true, 0⟩, 10, 9, 1, false, none⟩
          : GameResult).game_type := by
  decide

/-! ### The history store (C8) -/

/-- The backing records file as `_load_data` can find it: absent
(`FileNotFoundError`), unparsable (`json.JSONDecodeError`), or a parsed JSON
document whose "history" key holds a list of record dicts (`none` when the
document has no such key). -/
inductive FileState
  | missing
  | corrupt
  | good (history : Option (List PyDict))

/-- `JsonHistoryRepository._load_data`: the parsed document, with the
`except (json.JSONDecodeError, FileNotFoundError)` branch returning
`{"history": []}`. -/
def loadData : FileState → Option (List PyDict)
  | .missing => some []
  | .corrupt => some []
  | .good h => h

/-- `JsonHistoryRepository._load_results`: `data.get("history", [])` parsed
through `GameResult.from_dict`. -/
def loadResults (fs : FileState) (now : ℚ) : List GameResult :=
  ((loadData fs).getD []).map (fun d => from_dict d now)

/-- Python `max(results, key=lambda r: r.wpm)`: the running maximum, kept
only on a strictly greater key, so the first maximal element wins ties. -/
def maxByWpm (h : GameResult) (t : List GameResult) : GameResult :=
  t.foldl (fun acc r => if acc.wpm < r.wpm then r else acc) h

/-- `JsonHistoryRepository.get_best` on the loaded result list. -/
def getBest (results : List GameResult) : Option GameResult :=
  match results with
  | [] => none
  | h :: t => some (maxByWpm h t)

/-- `JsonHistoryRepository.get_best` end to end. -/
def get_best (fs : FileState) (now : ℚ) : Option GameResult :=
  getBest (loadResults fs now)

theorem maxByWpm_mem (t : List GameResult) (h : GameResult) :
    maxByWpm h t ∈ h :: t := by
  induction t generalizing h with
  | nil => exact List.mem_singleton.mpr rfl
  | cons a t ih =>
      have hm := ih (if h.wpm < a.wpm then a else h)
      unfold maxByWpm at hm ⊢
      rw [List.foldl_cons]
      rcases List.mem_cons.mp hm with heq | hmem
      · rw [heq]
        split_ifs
        · exact List.mem_cons_of_mem _ (List.mem_cons_self _ _)
        · exact List.mem_cons_self _ _
      · exact List.mem_cons_of_mem _ (List.mem_cons_of_mem _ hmem)

theorem maxByWpm_le (t : List GameResult) (h : GameResult) :
    ∀ x ∈ h :: t, x.wpm ≤ (maxByWpm h t).wpm := by
  induction t generalizing h with
  | nil =>
      intro x hx
      rw [List.mem_singleton.mp hx]
      exact le_refl _
  | cons a t ih =>
      intro x hx
      unfold maxByWpm
      rw [List.foldl_cons]
      have hh : h.wpm ≤ (if h.wpm < a.wpm then a else h).wpm := by
        split_ifs with hlt
        · exact le_of_lt hlt
        · exact le_refl _
      have ha : a.wpm ≤ (if h.wpm < a.wpm then a else h).wpm := by
        split_ifs with hlt
        · exact le_refl _
        · exact le_of_not_lt hlt
      rcases List.mem_cons.mp hx with rfl | hx'
      · exact le_trans hh
          (ih _ _ (List.mem_cons_self _ _))
      · rcases List.mem_cons.mp hx' with rfl | hx''
        · exact le_trans ha
            (ih _ _ (List.mem_cons_self _ _))
        · exact ih _ _ (List.mem_cons_of_mem _ hx'')

theorem getBest_none_iff (results : List GameResult) :
    getBest results = none ↔ results = [] := by
  cases results <;> simp [getBest]

theorem getBest_spec (results : List GameResult) (r : GameResult)
    (h : getBest results = some r) :
    r ∈ results ∧ ∀ x ∈ results, x.wpm ≤ r.wpm := by
  cases results with
  | nil => exact absurd h (by simp [getBest])
  | cons a t =>
      have hr : r = maxByWpm a t := by
        unfold getBest at h
        exact (Option.some.inj h).symm
      subst hr
      exact ⟨maxByWpm_mem t a, maxByWpm_le t a⟩

/-- C8: a missing or malformed backing file loads as an empty store, and
`get_best` returns `none` exactly when the store is empty and otherwise a
stored result of maximal WPM. -/
theorem history_load_and_get_best (now : ℚ) :
    loadResults FileState.missing now = [] ∧
    loadResults FileState.corrupt now = [] ∧
    get_best FileState.missing now = none ∧
    get_best FileState.corrupt now = none ∧
    (∀ fs, (get_best fs now = none ↔ loadResults fs now = []) ∧
      ∀ r, get_best fs now = some r →
        r ∈ loadResults fs now ∧
          ∀ x ∈ loadResults fs now, x.wpm ≤ r.wpm) := by
  refine ⟨rfl, rfl, rfl, rfl, fun fs => ⟨getBest_none_iff _, fun r h => getBest_spec _ r h⟩⟩

/-- Witness for C8: a two-record store yields its higher-WPM record, which
dominates every stored entry. -/
theorem history_load_and_get_best_witness :
    (⟨50, 95, 60, "Random Words", ⟨true, 1⟩, 12, 12, 0, false, none⟩
        : GameResult) ∈
      loadResults (FileState.good (some
        [⟨some 30, some 90, some 60, some "Random Words", none,
            some ⟨true, 0⟩, none, some 10, some 9, some 1⟩,
          ⟨some 50, some 95, some 60, some "Random Words", none,
            some ⟨true, 1⟩, none, some 12, some 12, some 0⟩])) 7 ∧
    ∀ x ∈ loadResults (FileState.good (some
        [⟨some 30, some 90, some 60, some "Random Words", none,
            some ⟨true, 0⟩, none, some 10, some 9, some 1⟩,
          ⟨some 50, some 95, some 60, some "Random Words", none,
            some ⟨true, 1⟩, none, some 12, some 12, some 0⟩])) 7,
      x.wpm ≤ (⟨50, 95, 60, "Random Words", ⟨true, 1⟩, 12, 12, 0, false, none⟩
        : GameResult).wpm :=
  ((history_load_and_get_best 7).2.2.2.2 (FileState.good (some
      [⟨some 30, some 90, some 60, some "Random Words", none,
          some ⟨true, 0⟩, none, some 10, some 9, some 1⟩,
        ⟨some 50, some 95, some 60, some "Random Words", none,
          some ⟨true, 1⟩, none, some 12, some 12, some 0⟩]))).2
    ⟨50, 95, 60, "Random Words", ⟨true, 1⟩, 12, 12, 0, false, none⟩
    (by decide)

/-! ### The application router (C4, C10) -/

/-- `application_router.py: AVAILABLE_GAMES` has exactly two entries
(`RandomWordsGame`, `PhraseTypingGame`). -/
def numAvailableGames : ℕ := 2

/-- The router-observable state of `ApplicationRouter`: the history store it
writes to, the current game (if any), and the menu selection index. -/
structure RouterState where
  history : List GameResult
  current_game : Option GameState
  selected_game_index : ℤ

/-- `ApplicationRouter.select_game`: accept only in-range indices. -/
def select_game (rt : RouterState) (index : ℤ) : Bool × RouterState :=
  if 0 ≤ index ∧ index < (numAvailableGames : ℤ) then
    (true, { rt with selected_game_index := index })
  else (false, rt)

/-- `ApplicationRouter.navigate_game_selection`: move the selection with
wrap-around (Python `%` on a positive modulus). -/
def navigate_game_selection (rt : RouterState) (direction : ℤ) : RouterState :=
  { rt with selected_game_index :=
      (rt.selected_game_index + direction) % (numAvailableGames : ℤ) }

/-- `ApplicationRouter.return_to_main_menu`: cancel and drop any unfinished
game (the cancelled object is discarded, so only the cleared slot is
observable) and reset the selection to 0. -/
def return_to_main_menu (rt : RouterState) : RouterState :=
  { rt with current_game := none, selected_game_index := 0 }

/-- `ApplicationRouter.finish_game`: finish the current game, query the
pre-existing best *before* saving, stamp the transient annotations, persist
the annotated result, and return it; `none` when no game is current. -/
def finish_game (rt : RouterState) (now : ℚ) :
    Option GameResult × RouterState :=
  match rt.current_game with
  | none => (none, rt)
  | some g =>
      let fg := finishGame g now
      let best := getBest rt.history
      let annotated : GameResult :=
        { fg.1 with
          is_new_record := decide (0 < fg.1.wpm) &&
            (match best with
             | none => true
             | some b => decide (b.wpm < fg.1.wpm))
          previous_best := best.map (fun b => b.wpm) }
      (some annotated, { rt with history := rt.history ++ [annotated],
                                 current_game := some fg.2 })

/-- C4: `finish_game` returns `none` when no game is current; otherwise it
finishes the session, stamps `is_new_record` (positive WPM strictly beating
every stored entry — vacuously all of them when the store is empty) and
`previous_best` (the prior best's WPM, absent on an empty store, queried
before saving), persists the annotated result, and returns it. -/
theorem finish_game_spec (rt : RouterState) (now : ℚ) :
    (rt.current_game = none → finish_game rt now = (none, rt)) ∧
    (∀ g, rt.current_game = some g →
      ∃ ann,
        (finish_game rt now).1 = some ann ∧
        ann = { (finishGame g now).1 with
                  is_new_record := ann.is_new_record,
                  previous_best := ann.previous_best } ∧
        (finish_game rt now).2.history = rt.history ++ [ann] ∧
        (ann.is_new_record = true ↔
          (0 < ann.wpm ∧ ∀ b ∈ rt.history, b.wpm < ann.wpm)) ∧
        (rt.history = [] → ann.previous_best = none) ∧
        (rt.history ≠ [] → ∃ b ∈ rt.history,
          ann.previous_best = some b.wpm ∧
            ∀ x ∈ rt.history, x.wpm ≤ b.wpm)) := by
  constructor
  · intro h
    unfold finish_game
    rw [h]
  · intro g hg
    unfold finish_game
    rw [hg]
    dsimp only
    rcases hbo : getBest rt.history with _ | b
    · have hemp : rt.history = [] := (getBest_none_iff _).mp hbo
      refine ⟨_, rfl, rfl, rfl, ?_, fun _ => rfl, fun hne => absurd hemp hne⟩
      rw [hemp]
      simp
    · obtain ⟨hmem, hmax⟩ := getBest_spec rt.history b hbo
      refine ⟨_, rfl, rfl, rfl, ?_, ?_, ?_⟩
      · simp only [Bool.and_eq_true, decide_eq_true_eq]
        constructor
        · rintro ⟨h1, h2⟩
          exact ⟨h1, fun x hx => lt_of_le_of_lt (hmax x hx) h2⟩
        · rintro ⟨h1, h2⟩
          exact ⟨h1, h2 b hmem⟩
      · intro hemp
        rw [hemp] at hbo
        exact absurd hbo (by simp [getBest])
      · intro _
        exact ⟨b, hmem, rfl, hmax⟩

/-- Witness for C4: with no current game, `finish_game` returns `none` and
leaves the router untouched. -/
theorem finish_game_spec_witness :
    finish_game ⟨[], none, 0⟩ 5 = (none, ⟨[], none, 0⟩) :=
  (finish_game_spec ⟨[], none, 0⟩ 5).1 rfl

/-- The menu operations C10 quantifies over. -/
inductive RouterOp
  | select (index : ℤ)
  | navigate (direction : ℤ)
  | reset

/-- Apply one menu operation to the router. -/
def applyOp (rt : RouterState) (op : RouterOp) : RouterState :=
  match op with
  | .select i => (select_game rt i).2
  | .navigate d => navigate_game_selection rt d
  | .reset => return_to_main_menu rt

/-- Apply a sequence of menu operations. -/
def applyOps (rt : RouterState) (ops : List RouterOp) : RouterState :=
  ops.foldl applyOp rt

theorem applyOp_index_in_range (rt : RouterState) (op : RouterOp)
    (h0 : 0 ≤ rt.selected_game_index)
    (h1 : rt.selected_game_index < (numAvailableGames : ℤ)) :
    0 ≤ (applyOp rt op).selected_game_index ∧
      (applyOp rt op).selected_game_index < (numAvailableGames : ℤ) := by
  cases op with
  | select i =>
      unfold applyOp select_game
      dsimp only
      split_ifs with h
      · exact ⟨h.1, h.2⟩
      · exact ⟨h0, h1⟩
  | navigate d =>
      unfold applyOp navigate_game_selection
      dsimp only
      refine ⟨Int.emod_nonneg _ ?_, Int.emod_lt_of_pos _ ?_⟩
      · norm_num [numAvailableGames]
      · norm_num [numAvailableGames]
  | reset =>
      refine ⟨le_refl 0, ?_⟩
      norm_num [numAvailableGames, applyOp, return_to_main_menu]

/-- C10: `selected_game_index` stays in `[0, numAvailableGames)`:
`select_game` rejects out-of-range indices without changing it,
`navigate_game_selection` wraps any (possibly negative) delta into range,
`return_to_main_menu` resets it to 0, and hence every sequence of these
operations preserves the in-range invariant. -/
theorem router_selected_index_invariant :
    (∀ (rt : RouterState) (i : ℤ),
      ¬(0 ≤ i ∧ i < (numAvailableGames : ℤ)) →
        select_game rt i = (false, rt)) ∧
    (∀ (rt : RouterState) (d : ℤ),
      0 ≤ (navigate_game_selection rt d).selected_game_index ∧
        (navigate_game_selection rt d).selected_game_index
          < (numAvailableGames : ℤ)) ∧
    (∀ rt : RouterState,
      (return_to_main_menu rt).selected_game_index = 0) ∧
    (∀ (rt : RouterState) (ops : List RouterOp),
      0 ≤ rt.selected_game_index →
      rt.selected_game_index < (numAvailableGames : ℤ) →
      0 ≤ (applyOps rt ops).selected_game_index ∧
        (applyOps rt ops).selected_game_index < (numAvailableGames : ℤ)) := by
  refine ⟨?_, ?_, ?_, ?_⟩
  · intro rt i h
    unfold select_game
    rw [if_neg h]
  · intro rt d
    unfold navigate_game_selection
    exact ⟨Int.emod_nonneg _ (by norm_num [numAvailableGames]),
      Int.emod_lt_of_pos _ (by norm_num [numAvailableGames])⟩
  · intro rt
    rfl
  · intro rt ops h0 h1
    induction ops generalizing rt with
    | nil => exact ⟨h0, h1⟩
    | cons op t ih =>
        have hstep := applyOp_index_in_range rt op h0 h1
        exact ih (applyOp rt op) hstep.1 hstep.2

/-- Witness for C10: a mixed operation sequence from the initial selection
keeps the index in range. -/
theorem router_selected_index_invariant_witness :
    0 ≤ (applyOps ⟨[], none, 0⟩ [RouterOp.navigate (-3), RouterOp.select 5,
        RouterOp.reset, RouterOp.navigate 7]).selected_game_index ∧
      (applyOps ⟨[], none, 0⟩ [RouterOp.navigate (-3), RouterOp.select 5,
        RouterOp.reset, RouterOp.navigate 7]).selected_game_index
        < (numAvailableGames : ℤ) :=
  router_selected_index_invariant.2.2.2 ⟨[], none, 0⟩
    [RouterOp.navigate (-3), RouterOp.select 5, RouterOp.reset,
      RouterOp.navigate 7] (by decide) (by decide)

/-- Witness for C2: submitting the single (wrong) word of a one-word session
commits it verbatim and completes the session. -/
theorem process_input_complete_word_witness :
    ((processInput ⟨"Random Words", GameStatus.active, [['h', 'i']], [],
        0, 3, 0, 0, [], [], none⟩ ['n', 'o'] true 5).2.typed_words.get? 0
      = some ['n', 'o']) ∧
    ((processInput ⟨"Random Words", GameStatus.active, [['h', 'i']], [],
        0, 3, 0, 0, [], [], none⟩ ['n', 'o'] true 5).2.status
      = GameStatus.completed) := by
  have h := process_input_complete_word
    ⟨"Random Words", GameStatus.active, [['h', 'i']], [],
      0, 3, 0, 0, [], [], none⟩ ['n', 'o'] 5 rfl (by decide)
  exact ⟨(h.1 (by decide)).1, ((h.1 (by decide)).2.2.2.2 (by decide)).1⟩

end Termtypr
